import Mathlib

/-!
A shallow embedding of the MySQL dialect query generator
(`lib/dialects/mysql/query-generator.js`) and proofs about it.

Conventions of the embedding:
* JavaScript strings are Lean `String`s; the character-level operations the
  source relies on (substring scans, regex matches, `replace`, `trim`, `split`)
  are implemented on `List Char` by structural recursion, mirroring the
  JavaScript semantics (including "first occurrence" vs greedy behaviour).
* A JavaScript value that may be `undefined` is an `Option`.
* The function throws (e.g. dereferencing a failed regex match) exactly where
  the embedding returns `none`.
* Collaborators that live outside this file's source (the abstract query
  generator, `Utils`, `SqlString`) are modelled from the specification; each
  such definition carries a doc comment starting with `Modelled from the spec:`.
-/

/-! ## Character-list utilities (JavaScript string semantics) -/

/-- Test whether `l` starts with `needle`. -/
def isPrefixOfL : List Char → List Char → Bool
  | [], _ => true
  | _ :: _, [] => false
  | a :: as, b :: bs => a = b && isPrefixOfL as bs

/-- Substring containment (JavaScript `String.prototype.includes` /
lodash `_.includes` on strings): does `hay` contain `needle`? -/
def containsSubL (needle : List Char) : List Char → Bool
  | [] => isPrefixOfL needle []
  | c :: t => isPrefixOfL needle (c :: t) || containsSubL needle t

/-- JavaScript `s.replace(pat, repl)` for a plain-text pattern: replaces the
first occurrence only. -/
def replaceFirstL (needle repl : List Char) : List Char → List Char
  | [] => []
  | c :: t =>
    if isPrefixOfL needle (c :: t) then repl ++ (c :: t).drop needle.length
    else c :: replaceFirstL needle repl t

/-- Leading-whitespace removal, first half of JavaScript `trim()`. -/
def dropLeadingWs : List Char → List Char
  | [] => []
  | c :: t => if c.isWhitespace then dropLeadingWs t else c :: t

/-- Trailing-whitespace removal, second half of JavaScript `trim()`. -/
def dropTrailingWs : List Char → List Char
  | [] => []
  | c :: t =>
    match dropTrailingWs t with
    | [] => if c.isWhitespace then [] else [c]
    | t' => c :: t'

/-- JavaScript `String.prototype.trim`. -/
def jsTrim (l : List Char) : List Char := dropTrailingWs (dropLeadingWs l)

/-- The part of `l` strictly before the first occurrence of `needle`
(all of `l` when `needle` does not occur): JavaScript `s.split(sep)[0]`. -/
def takeUntilSub (needle : List Char) : List Char → List Char
  | [] => []
  | c :: t => if isPrefixOfL needle (c :: t) then [] else c :: takeUntilSub needle t

/-- Split on a single character, auxiliary accumulator form. -/
def splitOnCharAux (sep : Char) : List Char → List Char → List (List Char)
  | [], acc => [acc.reverse]
  | c :: t, acc =>
    if c = sep then acc.reverse :: splitOnCharAux sep t []
    else splitOnCharAux sep t (c :: acc)

/-- JavaScript `s.split(sep)` for a one-character separator. -/
def splitOnCharL (sep : Char) (l : List Char) : List (List Char) :=
  splitOnCharAux sep l []

/-! ## String-level wrappers -/

/-- Substring containment on `String` (lodash `_.includes`). -/
def sContains (hay needle : String) : Bool := containsSubL needle.data hay.data

/-- JavaScript `s.startsWith(pre)` (used for `prop.indexOf('$') === 0`). -/
def sStarts (s pre : String) : Bool := isPrefixOfL pre.data s.data

/-- Replace the first occurrence of `needle` by `repl` (JavaScript
`s.replace(/needle/, repl)` with a literal pattern). -/
def sReplaceFirst (needle repl s : String) : String :=
  String.mk (replaceFirstL needle.data repl.data s.data)

/-- JavaScript `s.trim()`. -/
def sTrim (s : String) : String := String.mk (jsTrim s.data)

/-- JavaScript `parts.join(sep)`. -/
def joinSep (sep : String) : List String → String
  | [] => ""
  | [x] => x
  | x :: y :: t => x ++ sep ++ joinSep sep (y :: t)

/-- JavaScript `s.split('.')`. -/
def sSegments (s : String) : List String :=
  (splitOnCharL '.' s.data).map String.mk

/-- JavaScript `s.toUpperCase()` (ASCII, which is all the source feeds it). -/
def sToUpper (s : String) : String := String.mk (s.data.map Char.toUpper)

/-! ## The identifier/value escaper (§4.1) -/

/-- Modelled from the spec: `Utils.addTicks` wraps a name in the given tick
character (§4.1: `quoteIdentifier` wraps the name in the dialect's
identifier-quote character). -/
def addTicks (s tick : String) : String := tick ++ s ++ tick

/-- Source `quoteIdentifier`: the wildcard `*` passes through
unquoted, everything else is wrapped in backticks. -/
def quoteIdentifier (ident : String) : String :=
  if ident = "*" then ident else addTicks ident "`"

/-- A table name: either a bare string or a schema-qualified pair. -/
inductive TableName where
  | str : String → TableName
  | sch : String → String → TableName
deriving DecidableEq

/-- Modelled from the spec: `quoteTable` resolves a possibly schema-qualified
table name into one quoted reference (§4.1). -/
def quoteTable : TableName → String
  | .str s => quoteIdentifier s
  | .sch schemaName name => quoteIdentifier schemaName ++ "." ++ quoteIdentifier name

/-- Modelled from the spec: the abstract generator's `quoteIdentifiers`
splits a dotted name and quotes each part (used by `removeIndexQuery`). -/
def quoteIdentifiers (s : String) : String :=
  joinSep "." ((sSegments s).map quoteIdentifier)

/-- Modelled from the spec: `escape` renders a numeric literal in decimal
(§8 example: `DELETE FROM \`t\` LIMIT 1`). -/
def escapeNum (n : Int) : String := toString n

/-! ## deleteQuery (§4.4) -/

/-- The options bag consumed by `deleteQuery`; besides `truncate` and `limit`
it carries the other per-call fields of the spec's OptionsBag so that frame
effects (which fields a call mutates) can be stated. -/
structure DeleteOptions where
  truncate : Bool := false
  limit : Option Int := none
  onDuplicate : Option String := none
  database : Option String := none
  comment : Option String := none
deriving DecidableEq

/-- Modelled from the spec: the abstract `getWhereConditions` compiles the
`where` argument via the predicate layer; a null/absent `where` yields an
empty (falsy) condition string. -/
def getWhereConditions : Option String → String
  | none => ""
  | some s => s

/-- Source `deleteQuery(tableName, where, options)`. The JavaScript
function mutates `options` in place (`options.limit = 1`); the embedding
returns the final options object alongside the SQL string. -/
def deleteQuery (tableName : TableName) (whereArg : Option String)
    (options : DeleteOptions) : String × DeleteOptions :=
  let table := quoteTable tableName
  if options.truncate = true then
    -- Truncate does not allow LIMIT and WHERE
    ("TRUNCATE " ++ table, options)
  else
    let whereC := getWhereConditions whereArg
    let options := if options.limit = none then { options with limit := some 1 } else options
    let limitS :=
      match options.limit with
      | some n => if n ≠ 0 then " LIMIT " ++ escapeNum n else ""
      | none => ""
    ("DELETE FROM " ++ table ++ (if whereC ≠ "" then " WHERE " ++ whereC else "") ++ limitS,
     options)

/-! ## upsertQuery (§4.4) -/

/-- The options bag forwarded by `upsertQuery` to the insert assembler. -/
structure UpsertOptions where
  onDuplicate : Option String := none
deriving DecidableEq

/-- Scalar-ish values appearing in insert/update value maps (their content is
irrelevant to `upsertQuery`, which only reads the keys of `updateValues`). -/
inductive ColVal where
  | int : Int → ColVal
  | str : String → ColVal
deriving DecidableEq

/-- The delegated call `this.insertQuery(tableName, insertValues,
rawAttributes, options)`; the insert assembler is an external collaborator
(Modelled from the spec: `upsertQuery` "delegates entirely to the insert
assembler with that option set"), so the embedding returns its argument
tuple as data. -/
structure InsertCall where
  table : TableName
  insertValues : List (String × ColVal)
  rawAttributes : List String
  options : UpsertOptions
deriving DecidableEq

/-- One `col=VALUES(col)` clause per key of `updateValues`. -/
def onDuplicateClauses (updateKeys : List String) : List String :=
  updateKeys.map fun k =>
    quoteIdentifier k ++ "=VALUES(" ++ quoteIdentifier k ++ ")"

/-- Source `upsertQuery(tableName, insertValues, updateValues, where, rawAttributes,
options)` from the source: sets `options.onDuplicate` and delegates to the
insert assembler. -/
def upsertQuery (tableName : TableName) (insertValues : List (String × ColVal))
    (updateValues : List (String × ColVal)) (_whereArg : Option String)
    (rawAttributes : List String) (options : UpsertOptions) : InsertCall :=
  let onDuplicate :=
    "UPDATE " ++ joinSep ", " (onDuplicateClauses (updateValues.map Prod.fst))
  ⟨tableName, insertValues, rawAttributes, { options with onDuplicate := some onDuplicate }⟩

/-! ## Claims C4, C5, C10: deleteQuery; C8: upsertQuery -/

/-- C4: for every table name and every options bag with `truncate = true`,
`deleteQuery` returns exactly `TRUNCATE ` followed by the quoted table name,
with no WHERE and no LIMIT clause, regardless of the `where` argument and of
every other option (including `limit`). -/
theorem deleteQuery_truncate (tableName : TableName) (whereArg : Option String)
    (options : DeleteOptions) (h : options.truncate = true) :
    (deleteQuery tableName whereArg options).1 = "TRUNCATE " ++ quoteTable tableName := by
  simp [deleteQuery, h]

theorem deleteQuery_truncate_witness :
    ({ truncate := true, limit := some 5 : DeleteOptions }.truncate = true) ∧
    (deleteQuery (.str "t") (some "1=1") { truncate := true, limit := some 5 }).1 =
      "TRUNCATE " ++ quoteTable (.str "t") :=
  ⟨rfl, deleteQuery_truncate (.str "t") (some "1=1") { truncate := true, limit := some 5 } rfl⟩

/-- C5: with `truncate` not true, the limit defaults to 1 when unset, and the
escaped limit is appended as ` LIMIT <n>` (after the optional WHERE clause)
exactly when the possibly-defaulted limit is truthy; in particular
`deleteQuery('t', null, {})` returns ``DELETE FROM `t` LIMIT 1``. -/
theorem deleteQuery_default_limit (tableName : TableName) (whereArg : Option String)
    (options : DeleteOptions) (h : options.truncate = false) :
    (deleteQuery tableName whereArg options).1 =
      "DELETE FROM " ++ quoteTable tableName ++
        (if getWhereConditions whereArg ≠ "" then " WHERE " ++ getWhereConditions whereArg else "") ++
        (if options.limit.getD 1 ≠ 0 then " LIMIT " ++ escapeNum (options.limit.getD 1) else "") := by
  cases hl : options.limit with
  | none => simp [deleteQuery, h, hl]
  | some n => simp [deleteQuery, h, hl]

theorem deleteQuery_default_limit_witness :
    (({} : DeleteOptions).truncate = false) ∧
    (deleteQuery (.str "t") none {}).1 = "DELETE FROM `t` LIMIT 1" :=
  ⟨rfl, (deleteQuery_default_limit (.str "t") none {} rfl).trans rfl⟩

/-- C10: `deleteQuery` mutates the caller-supplied options object: when
`options.limit` is unset and `options.truncate` is not true it assigns
`limit = 1` in place (so the caller observes `limit = some 1` afterwards),
and no other field of the options object is ever modified. -/
theorem deleteQuery_mutates_options :
    (∀ (tableName : TableName) (whereArg : Option String) (options : DeleteOptions),
        options.limit = none → options.truncate = false →
        (deleteQuery tableName whereArg options).2 = { options with limit := some 1 }) ∧
    (∀ (tableName : TableName) (whereArg : Option String) (options : DeleteOptions),
        ((deleteQuery tableName whereArg options).2.truncate = options.truncate ∧
         (deleteQuery tableName whereArg options).2.onDuplicate = options.onDuplicate) ∧
        ((deleteQuery tableName whereArg options).2.database = options.database ∧
         (deleteQuery tableName whereArg options).2.comment = options.comment)) := by
  constructor
  · intro tableName whereArg options hl ht
    simp [deleteQuery, ht, hl]
  · intro tableName whereArg options
    by_cases ht : options.truncate = true
    · simp [deleteQuery, ht]
    · simp only [Bool.not_eq_true] at ht
      by_cases hl : options.limit = none <;> simp [deleteQuery, ht, hl]

theorem deleteQuery_mutates_options_witness :
    (({} : DeleteOptions).limit = none ∧ ({} : DeleteOptions).truncate = false) ∧
    (deleteQuery (.str "t") none {}).2 = { ({} : DeleteOptions) with limit := some 1 } :=
  ⟨⟨rfl, rfl⟩, deleteQuery_mutates_options.1 (.str "t") none {} rfl rfl⟩

/-- C8: `upsertQuery` forwards to the insert assembler an `onDuplicate`
option equal to `UPDATE ` followed by the comma-joined clauses, one clause
`col=VALUES(col)` (with the key quoted) per key of `updateValues`, so the
clause count equals the number of keys. -/
theorem upsertQuery_onDuplicate (tableName : TableName)
    (insertValues updateValues : List (String × ColVal)) (whereArg : Option String)
    (rawAttributes : List String) (options : UpsertOptions) :
    (upsertQuery tableName insertValues updateValues whereArg rawAttributes options).options.onDuplicate =
        some ("UPDATE " ++ joinSep ", " (onDuplicateClauses (updateValues.map Prod.fst))) ∧
      (onDuplicateClauses (updateValues.map Prod.fst)).length = updateValues.length ∧
      onDuplicateClauses (updateValues.map Prod.fst) =
        updateValues.map (fun kv =>
          quoteIdentifier kv.1 ++ "=VALUES(" ++ quoteIdentifier kv.1 ++ ")") ∧
      (upsertQuery tableName insertValues updateValues whereArg rawAttributes options).table
          = tableName ∧
      (upsertQuery tableName insertValues updateValues whereArg rawAttributes options).insertValues
          = insertValues := by
  refine ⟨rfl, ?_, ?_, rfl, rfl⟩
  · simp [onDuplicateClauses]
  · simp [onDuplicateClauses]

/-! ## attributeToSQL (§4.2) -/

/-- A column type as the source sees it: either a raw SQL-type string or a
structured type object. The source only interrogates a type through
`toString({escape})` (its rendering), strict equality with the string
`'TEXT'`, and its `_binary` property. -/
inductive AttrType where
  | raw : String → AttrType
  | typ : String → Bool → AttrType
deriving DecidableEq

/-- The type-rendering capability (spec §6): `attribute.type.toString({escape:
...})`. A raw string renders as itself; a structured type carries its
rendered SQL text. -/
def AttrType.render : AttrType → String
  | .raw s => s
  | .typ s _ => s

/-- The test `attribute.type !== 'TEXT'`, negated: strict equality with the string
literal `'TEXT'`. A structured type object is never strictly equal to a
string. -/
def AttrType.isTextLiteral : AttrType → Bool
  | .raw s => s = "TEXT"
  | .typ _ _ => false

/-- The test `attribute.type._binary === true`. A raw string has no `_binary`
property. -/
def AttrType.binaryFlag : AttrType → Bool
  | .raw _ => false
  | .typ _ b => b

/-- A default value: a representable literal or a function/expression. -/
inductive DefaultVal where
  | str : String → DefaultVal
  | int : Int → DefaultVal
  | fn : DefaultVal
deriving DecidableEq

/-- Modelled from the spec: `Utils.defaultValueSchemable` — a defined,
non-function, dialect-representable value is schemable (glossary: "Schemable
default"). -/
def defaultValueSchemable : Option DefaultVal → Bool
  | none => false
  | some .fn => false
  | some _ => true

/-- Modelled from the spec: `escape` renders a literal default value as a
safe SQL literal (§4.1). -/
def escapeDefault : DefaultVal → String
  | .str s => "'" ++ s ++ "'"
  | .int n => toString n
  | .fn => ""

/-- A reference descriptor `{model, key?}` (spec §3); `Utils.formatReferences`
is modelled from the spec as the normalisation into this shape. -/
structure RefDesc where
  model : TableName
  key : Option String := none
deriving DecidableEq

/-- An attribute descriptor (spec §3). -/
structure Attribute where
  type : AttrType
  allowNull : Option Bool := none
  autoIncrement : Bool := false
  defaultValue : Option DefaultVal := none
  unique : Option Bool := none
  primaryKey : Bool := false
  after : Option String := none
  references : Option RefDesc := none
  onDelete : Option String := none
  onUpdate : Option String := none
deriving DecidableEq

/-- Options consumed by `attributeToSQL`. -/
structure AttrOptions where
  context : Option String := none
  foreignKey : Option String := none
deriving DecidableEq

/-- Source `attributeToSQL(attribute, options)`, built by the same
sequential concatenation. (JavaScript truthiness: empty strings in `after`,
`foreignKey`, `references.key`, `onDelete`, `onUpdate` are falsy.) -/
def attributeToSQL (attr : Attribute) (options : Option AttrOptions) : String :=
  let template := attr.type.render
  let template := template ++ (if attr.allowNull = some false then " NOT NULL" else "")
  let template := template ++ (if attr.autoIncrement then " auto_increment" else "")
  -- Blobs/texts cannot have a defaultValue
  let template := template ++
    (if !attr.type.isTextLiteral && !attr.type.binaryFlag
        && defaultValueSchemable attr.defaultValue then
       " DEFAULT " ++ (match attr.defaultValue with
                       | some v => escapeDefault v
                       | none => "")
     else "")
  let template := template ++ (if attr.unique = some true then " UNIQUE" else "")
  let template := template ++ (if attr.primaryKey then " PRIMARY KEY" else "")
  let template := template ++
    (match attr.after with
     | some a => if a = "" then "" else " AFTER " ++ quoteIdentifier a
     | none => "")
  match attr.references with
  | none => template
  | some r =>
    let template := template ++
      (match options with
       | some o =>
         match o.context, o.foreignKey with
         | some ctx, some fk =>
           if ctx = "addColumn" && fk ≠ "" then
             ", ADD CONSTRAINT " ++ quoteIdentifier (fk ++ "_foreign_idx")
               ++ " FOREIGN KEY (" ++ quoteIdentifier fk ++ ")"
           else ""
         | _, _ => ""
       | none => "")
    let template := template ++ " REFERENCES " ++ quoteTable r.model
    let template := template ++
      (match r.key with
       | some k => if k = "" then " (" ++ quoteIdentifier "id" ++ ")"
                   else " (" ++ quoteIdentifier k ++ ")"
       | none => " (" ++ quoteIdentifier "id" ++ ")")
    let template := template ++
      (match attr.onDelete with
       | some a => if a = "" then "" else " ON DELETE " ++ sToUpper a
       | none => "")
    template ++
      (match attr.onUpdate with
       | some a => if a = "" then "" else " ON UPDATE " ++ sToUpper a
       | none => "")

/-! ## Claim C7: attributeToSQL and DEFAULT clauses -/

/-- C7 counterexample: the claim says `attributeToSQL` never emits a DEFAULT
clause when the attribute's type is a large-text type, for every default
value. The source only tests strict equality with the string `'TEXT'`
(`attribute.type !== 'TEXT'`), so a structured text type object — which
renders to `TEXT` but is not the string `'TEXT'` and has no binary flag —
does receive a DEFAULT clause. -/
theorem attributeToSQL_text_object_default :
    attributeToSQL { type := .typ "TEXT" false, defaultValue := some (.str "x") } none
        = "TEXT DEFAULT 'x'" ∧
      sContains (attributeToSQL { type := .typ "TEXT" false, defaultValue := some (.str "x") } none)
        " DEFAULT " = true := by
  exact ⟨rfl, by decide⟩

/-- C7 amended: a `DEFAULT <escaped literal>` clause is suppressed exactly
when the type is the literal raw string `'TEXT'` or carries the binary flag;
for every other type (including structured text type objects, which slip past
the strict string comparison) the clause is emitted exactly when the default
value is schemable. In particular `attributeToSQL({type: 'TEXT',
defaultValue: 'x'})` contains no DEFAULT clause. -/
theorem attributeToSQL_default_clause :
    (∀ (t : AttrType) (dv : Option DefaultVal),
        attributeToSQL { type := t, defaultValue := dv } none =
          t.render ++
            (if !t.isTextLiteral && !t.binaryFlag && defaultValueSchemable dv then
               " DEFAULT " ++ (match dv with | some v => escapeDefault v | none => "")
             else "")) ∧
      attributeToSQL { type := .raw "TEXT", defaultValue := some (.str "x") } none = "TEXT" := by
  constructor
  · intro t dv
    simp [attributeToSQL]
  · rfl

/-! ## createTableQuery (§4.4) -/

/-- The characters of the keyword scanned for by the source's regexes. -/
def refsChars : List Char := "REFERENCES".data

/-- No JavaScript line terminator (which `.` in a regex never matches). -/
def noLineTerm (l : List Char) : Bool :=
  !(l.contains '\n') && !(l.contains '\r') && !(l.contains '\u2028') && !(l.contains '\u2029')

/-- Does position `i` give a successful split of `s` for the regex
`/^(.+) (REFERENCES.*)$/`? The space matched by the pattern sits at index
`i`, the nonempty prefix `(.+)` is `s.take i`, and `(REFERENCES.*)` is
`s.drop (i+1)`; neither group may contain a line terminator. -/
def validRefSplit (s : List Char) (i : Nat) : Bool :=
  decide (1 ≤ i) && (s.drop i).head? == some ' '
    && isPrefixOfL refsChars (s.drop (i + 1))
    && noLineTerm (s.take i) && noLineTerm (s.drop (i + 1))

/-- The largest valid split position `≤ n` (the greedy `(.+)` backtracks from
the longest prefix, so the regex engine picks the largest valid `i`). -/
def lastValidRefSplit (s : List Char) : Nat → Option Nat
  | 0 => none
  | i + 1 => if validRefSplit s (i + 1) then some (i + 1) else lastValidRefSplit s i

/-- JavaScript `dataType.match(/^(.+) (REFERENCES.*)$/)`: `none` models a
null match (on which the source then throws by reading `match[1]`), and
`some (pre, post)` the pair of capture groups. -/
def jsMatchRefs (s : String) : Option (String × String) :=
  match lastValidRefSplit s.data s.data.length with
  | none => none
  | some i => some (String.mk (s.data.take i), String.mk (s.data.drop (i + 1)))

/-- One entry of `options.uniqueKeys`. -/
structure UniqKey where
  fields : List String
  singleField : Bool := false
deriving DecidableEq

/-- Options consumed by `createTableQuery`, after the `_.extend` with the
defaults `engine: 'InnoDB', charset: null`. A `uniqueKeys` entry whose index
name is `none` models a non-string (positional) key. -/
structure CreateTableOptions where
  engine : String := "InnoDB"
  charset : Option String := none
  collate : Option String := none
  comment : Option String := none
  initialAutoIncrement : Option String := none
  uniqueKeys : List (Option String × UniqKey) := []
deriving DecidableEq

/-- Modelled from the spec: `escape` renders a string literal (§4.1). -/
def escapeStr (s : String) : String := "'" ++ s ++ "'"

/-- JavaScript string coercion of the raw `tableName` argument (used
unquoted when auto-naming unique keys). -/
def tableNameCoerce : TableName → String
  | .str s => s
  | .sch _ _ => "[object Object]"

/-- The body of the attribute loop of `createTableQuery` for one column:
returns the inline definition pushed onto `attrStr`, whether the column was
recorded as a primary key, and the moved `REFERENCES...` text if any;
`none` models the TypeError thrown when `dataType.match(...)` is null. -/
def createTableRow (attr dataType : String) : Option (String × Bool × Option String) :=
  if sContains dataType "PRIMARY KEY" then
    if sContains dataType "REFERENCES" then
      -- MySQL doesn't support inline REFERENCES declarations: move to the end
      match jsMatchRefs dataType with
      | none => none
      | some (pre, post) =>
        some (quoteIdentifier attr ++ " " ++ sReplaceFirst "PRIMARY KEY" "" pre, true, some post)
    else
      some (quoteIdentifier attr ++ " " ++ sReplaceFirst "PRIMARY KEY" "" dataType, true, none)
  else if sContains dataType "REFERENCES" then
    -- MySQL doesn't support inline REFERENCES declarations: move to the end
    match jsMatchRefs dataType with
    | none => none
    | some (pre, post) => some (quoteIdentifier attr ++ " " ++ pre, false, some post)
  else
    some (quoteIdentifier attr ++ " " ++ dataType, false, none)

/-- The attribute loop of `createTableQuery`: the inline definitions in
order, the primary-key columns in order, and the moved foreign-key texts
keyed by column in insertion order. -/
def createTableProcess :
    List (String × String) → Option (List String × List String × List (String × String))
  | [] => some ([], [], [])
  | (attr, dataType) :: rest =>
    match createTableRow attr dataType with
    | none => none
    | some (entry, isPk, fk) =>
      match createTableProcess rest with
      | none => none
      | some (entries, pks, fks) =>
        some (entry :: entries, (if isPk then attr :: pks else pks),
              (match fk with | some f => (attr, f) :: fks | none => fks))

/-- The `options.uniqueKeys` appends (`singleField` entries are skipped;
non-string index names are auto-named `uniq_<table>_<fields>`). -/
def uniqueKeysAppends (tableName : TableName) : List (Option String × UniqKey) → String
  | [] => ""
  | (idxName, columns) :: rest =>
    (if columns.singleField then ""
     else
       let indexName :=
         match idxName with
         | some s => s
         | none => "uniq_" ++ tableNameCoerce tableName ++ "_" ++ joinSep "_" columns.fields
       ", UNIQUE " ++ quoteIdentifier indexName ++ " ("
         ++ joinSep ", " (columns.fields.map quoteIdentifier) ++ ")")
      ++ uniqueKeysAppends tableName rest

/-- The trailing `FOREIGN KEY` appends. -/
def foreignKeysAppends : List (String × String) → String
  | [] => ""
  | (fkey, refText) :: rest =>
    ", FOREIGN KEY (" ++ quoteIdentifier fkey ++ ") " ++ refText ++ foreignKeysAppends rest

/-- Source `createTableQuery(tableName, attributes, options)`;
`none` models the TypeError thrown when a column's `REFERENCES` regex match
is null. -/
def createTableQuery (tableName : TableName) (attributes : List (String × String))
    (options : CreateTableOptions) : Option String :=
  match createTableProcess attributes with
  | none => none
  | some (entries, primaryKeys, foreignKeys) =>
    let attrs := joinSep ", " entries
    let attrs := attrs ++ uniqueKeysAppends tableName options.uniqueKeys
    let pkString := joinSep ", " (primaryKeys.map quoteIdentifier)
    let attrs := attrs ++ (if 0 < pkString.data.length then ", PRIMARY KEY (" ++ pkString ++ ")" else "")
    let attrs := attrs ++ foreignKeysAppends foreignKeys
    let full := "CREATE TABLE IF NOT EXISTS " ++ quoteTable tableName ++ " (" ++ attrs
      ++ ") ENGINE=" ++ options.engine
      ++ (match options.comment with
          | some c => if c ≠ "" then " COMMENT " ++ escapeStr c else ""
          | none => "")
      ++ (match options.charset with
          | some c => if c ≠ "" then " DEFAULT CHARSET=" ++ c else ""
          | none => "")
      ++ (match options.collate with
          | some c => if c ≠ "" then " COLLATE " ++ c else ""
          | none => "")
      ++ (match options.initialAutoIncrement with
          | some c => if c ≠ "" then " AUTO_INCREMENT=" ++ c else ""
          | none => "")
    some (sTrim full ++ ";")

/-! ## String-level helper lemmas -/

theorem strAppend_data (x y : String) : (x ++ y).data = x.data ++ y.data :=
  String.data_append x y

theorem strAppend_empty (x : String) : x ++ "" = x := by
  cases x
  show String.mk _ = _
  simp [String.append]

theorem strAppend_assoc (a b c : String) : a ++ b ++ c = a ++ (b ++ c) := by
  cases a; cases b; cases c
  show String.mk _ = String.mk _
  simp [String.append]

theorem head?_data_append (x y : String) (c : Char) (h : x.data.head? = some c) :
    (x ++ y).data.head? = some c := by
  rw [strAppend_data]
  cases hx : x.data with
  | nil => rw [hx] at h; simp at h
  | cons a t => rw [hx] at h; simpa using h

theorem getLast?_data_append (x y : String) (d : Char) (h : y.data.getLast? = some d) :
    (x ++ y).data.getLast? = some d := by
  rw [strAppend_data]
  rw [List.getLast?_append_of_ne_nil x.data (fun hy => by rw [hy] at h; simp at h)]
  exact h

theorem getLast?_data_append_empty (x : String) (y : String) (hy : y.data = []) (d : Char)
    (h : x.data.getLast? = some d) : (x ++ y).data.getLast? = some d := by
  rw [strAppend_data, hy, List.append_nil]
  exact h

theorem dropLeadingWs_eq_self (c : Char) (t : List Char) (hc : c.isWhitespace = false) :
    dropLeadingWs (c :: t) = c :: t := by
  simp [dropLeadingWs, hc]

theorem dropTrailingWs_eq_self (l : List Char) (d : Char) (hd : d.isWhitespace = false) :
    dropTrailingWs (l ++ [d]) = l ++ [d] := by
  induction l with
  | nil => simp [dropTrailingWs, hd]
  | cons a t ih =>
    show dropTrailingWs (a :: (t ++ [d])) = _
    rw [dropTrailingWs, ih]
    cases ht : t ++ [d] with
    | nil => simp at ht
    | cons b u => simp [ht]

/-- A string whose first and last characters are non-whitespace is fixed by
JavaScript `trim()`. -/
theorem sTrim_eq_self (s : String) (c d : Char) (hc : c.isWhitespace = false)
    (hd : d.isWhitespace = false) (h1 : s.data.head? = some c)
    (h2 : s.data.getLast? = some d) : sTrim s = s := by
  have key : jsTrim s.data = s.data := by
    cases hs : s.data with
    | nil => simp [jsTrim, dropLeadingWs, dropTrailingWs]
    | cons a t =>
      have ha : a = c := by rw [hs] at h1; simpa using h1
      subst ha
      rw [jsTrim, dropLeadingWs_eq_self a t hc]
      rcases List.getLast?_eq_some_iff.mp (hs ▸ h2) with ⟨m, hm⟩
      rw [hm, dropTrailingWs_eq_self m d hd]
  show String.mk (jsTrim s.data) = s
  rw [key]

/-! ## Facts about the `/^(.+) (REFERENCES.*)$/` match -/

theorem containsSubL_drop (n l : List Char) (k : Nat)
    (h : isPrefixOfL n (l.drop k) = true) : containsSubL n l = true := by
  induction l generalizing k with
  | nil =>
    rw [List.drop_nil] at h
    rw [containsSubL]
    exact h
  | cons c t ih =>
    cases k with
    | zero =>
      rw [List.drop_zero] at h
      simp [containsSubL, h]
    | succ k =>
      have := ih k (by simpa using h)
      simp [containsSubL, this]

theorem lastValidRefSplit_valid (s : List Char) (n i : Nat)
    (h : lastValidRefSplit s n = some i) : validRefSplit s i = true := by
  induction n with
  | zero => simp [lastValidRefSplit] at h
  | succ n ih =>
    rw [lastValidRefSplit] at h
    by_cases hv : validRefSplit s (n + 1) = true
    · simp [hv] at h
      rw [← h]
      exact hv
    · simp [hv] at h
      exact ih h

theorem lastValidRefSplit_greatest (s : List Char) (n i : Nat)
    (h : lastValidRefSplit s n = some i) :
    ∀ j, j ≤ n → validRefSplit s j = true → j ≤ i := by
  induction n with
  | zero => simp [lastValidRefSplit] at h
  | succ n ih =>
    rw [lastValidRefSplit] at h
    by_cases hv : validRefSplit s (n + 1) = true
    · simp [hv] at h
      intro j hj _
      omega
    · simp [hv] at h
      intro j hj hvj
      rcases Nat.lt_or_ge j (n + 1) with h1 | h1
      · exact ih h j (by omega) hvj
      · have he : j = n + 1 := by omega
        exact absurd (he ▸ hvj) hv

theorem validRefSplit_lt_length (s : List Char) (j : Nat) (h : validRefSplit s j = true) :
    j < s.length := by
  rw [validRefSplit] at h
  simp only [Bool.and_eq_true, beq_iff_eq, decide_eq_true_eq] at h
  obtain ⟨⟨⟨⟨_, h2⟩, _⟩, _⟩, _⟩ := h
  by_contra hlen
  push_neg at hlen
  rw [List.drop_eq_nil_of_le hlen] at h2
  simp at h2

/-- Inversion for a successful regex match: the groups are a take/drop split
at a valid position `i`, and `i` is the largest valid position (the greedy
`(.+)` backtracks from the right). -/
theorem jsMatchRefs_eq (s pre post : String) (h : jsMatchRefs s = some (pre, post)) :
    ∃ i, validRefSplit s.data i = true ∧
      pre.data = s.data.take i ∧ post.data = s.data.drop (i + 1) ∧
      pre.data.length = i ∧
      (∀ j, validRefSplit s.data j = true → j ≤ i) := by
  rw [jsMatchRefs] at h
  cases hm : lastValidRefSplit s.data s.data.length with
  | none => rw [hm] at h; simp at h
  | some i =>
    rw [hm] at h
    simp only [Option.some.injEq, Prod.mk.injEq] at h
    obtain ⟨hpre, hpost⟩ := h
    have hvalid := lastValidRefSplit_valid s.data s.data.length i hm
    have hlt := validRefSplit_lt_length s.data i hvalid
    refine ⟨i, hvalid, ?_, ?_, ?_, ?_⟩
    · rw [← hpre]
    · rw [← hpost]
    · rw [← hpre]
      show (s.data.take i).length = i
      rw [List.length_take]
      omega
    · intro j hvj
      exact lastValidRefSplit_greatest s.data s.data.length i hm j
        (Nat.le_of_lt (validRefSplit_lt_length s.data j hvj)) hvj

theorem sContains_of_jsMatchRefs (s pre post : String)
    (h : jsMatchRefs s = some (pre, post)) : sContains s "REFERENCES" = true := by
  obtain ⟨i, hvalid, -, -, -, -⟩ := jsMatchRefs_eq s pre post h
  rw [validRefSplit] at hvalid
  simp only [Bool.and_eq_true] at hvalid
  obtain ⟨⟨⟨⟨-, -⟩, h3⟩, -⟩, -⟩ := hvalid
  exact containsSubL_drop refsChars s.data (i + 1) h3

theorem quoteIdentifier_len_pos (a : String) : 0 < (quoteIdentifier a).data.length := by
  rw [quoteIdentifier]
  by_cases h : a = "*"
  · simp [h]
  · simp only [h, if_false, addTicks]
    rw [strAppend_data, strAppend_data]
    simp

theorem sTrim_create (x : String) (h : x.data.getLast? = some 'B') :
    sTrim ("CREATE TABLE IF NOT EXISTS " ++ x) = "CREATE TABLE IF NOT EXISTS " ++ x :=
  sTrim_eq_self _ 'C' 'B' (by decide) (by decide)
    (head?_data_append _ _ 'C' rfl) (getLast?_data_append _ _ 'B' h)

/-- C1 amended: when a column's raw type string contains `PRIMARY KEY` and
matches `/^(.+) (REFERENCES.*)$/`, the split is at the LAST occurrence of
` REFERENCES` (greedy `(.+)`): everything from there is moved to the
trailing `, FOREIGN KEY (<quoted col>) <refs>` clause, the FIRST occurrence
of `PRIMARY KEY` is stripped from the inline prefix, and the column appears
in a trailing `, PRIMARY KEY (...)` clause. -/
theorem createTableQuery_pk_refs (tn : TableName) (a d pre post : String)
    (hpk : sContains d "PRIMARY KEY" = true)
    (hm : jsMatchRefs d = some (pre, post)) :
    createTableQuery tn [(a, d)] {} =
      some ("CREATE TABLE IF NOT EXISTS " ++ quoteTable tn ++ " (" ++ quoteIdentifier a ++ " "
        ++ sReplaceFirst "PRIMARY KEY" "" pre ++ ", PRIMARY KEY (" ++ quoteIdentifier a
        ++ ")" ++ ", FOREIGN KEY (" ++ quoteIdentifier a ++ ") " ++ post
        ++ ") ENGINE=" ++ "InnoDB" ++ ";") ∧
    (∀ j, validRefSplit d.data j = true → j ≤ pre.data.length) := by
  have hrefs := sContains_of_jsMatchRefs d pre post hm
  have row : createTableRow a d =
      some (quoteIdentifier a ++ " " ++ sReplaceFirst "PRIMARY KEY" "" pre, true, some post) := by
    rw [createTableRow]
    simp [hpk, hrefs, hm]
  have hql := quoteIdentifier_len_pos a
  refine ⟨?_, ?_⟩
  · simp only [createTableQuery, createTableProcess, row, joinSep, uniqueKeysAppends,
      foreignKeysAppends, List.map, if_true, hql, strAppend_empty]
    simp only [strAppend_assoc]
    rw [sTrim_create]
    · simp only [strAppend_assoc]
    · repeat (first | rfl | apply getLast?_data_append)
  · obtain ⟨i, -, -, -, hlen, hmax⟩ := jsMatchRefs_eq d pre post hm
    intro j hvj
    rw [hlen]
    exact hmax j hvj

/-- C1 counterexample: the greedy `(.+)` in `/^(.+) (REFERENCES.*)$/` splits
at the LAST occurrence of ` REFERENCES`, so when the raw type string contains
`REFERENCES` twice, everything before the last occurrence — including the
first `REFERENCES ...` clause — stays inline in the column's definition,
contradicting the claim that the generated SQL contains no REFERENCES text
inline. -/
theorem createTableQuery_inline_references_counterexample :
    (sContains "INTEGER PRIMARY KEY REFERENCES a (x) REFERENCES b (y)" "PRIMARY KEY" = true ∧
     sContains "INTEGER PRIMARY KEY REFERENCES a (x) REFERENCES b (y)" "REFERENCES" = true) ∧
    createTableRow "id" "INTEGER PRIMARY KEY REFERENCES a (x) REFERENCES b (y)" =
      some ("`id` INTEGER  REFERENCES a (x)", true, some "REFERENCES b (y)") ∧
    sContains "`id` INTEGER  REFERENCES a (x)" "REFERENCES" = true ∧
    createTableQuery (.str "users")
        [("id", "INTEGER PRIMARY KEY REFERENCES a (x) REFERENCES b (y)")] {} =
      some "CREATE TABLE IF NOT EXISTS `users` (`id` INTEGER  REFERENCES a (x), PRIMARY KEY (`id`), FOREIGN KEY (`id`) REFERENCES b (y)) ENGINE=InnoDB;" := by
  exact ⟨⟨by decide, by decide⟩, by decide, by decide, by decide⟩

theorem createTableQuery_pk_refs_witness :
    (sContains "INTEGER PRIMARY KEY REFERENCES other (id)" "PRIMARY KEY" = true ∧
      jsMatchRefs "INTEGER PRIMARY KEY REFERENCES other (id)" =
        some ("INTEGER PRIMARY KEY", "REFERENCES other (id)")) ∧
    createTableQuery (.str "users") [("id", "INTEGER PRIMARY KEY REFERENCES other (id)")] {} =
      some "CREATE TABLE IF NOT EXISTS `users` (`id` INTEGER , PRIMARY KEY (`id`), FOREIGN KEY (`id`) REFERENCES other (id)) ENGINE=InnoDB;" := by
  refine ⟨⟨by decide, by decide⟩, ?_⟩
  have h := (createTableQuery_pk_refs (.str "users") "id" "INTEGER PRIMARY KEY REFERENCES other (id)"
    "INTEGER PRIMARY KEY" "REFERENCES other (id)" (by decide) (by decide)).1
  rw [h]
  rfl

/-! ## whereItemQuery (§4.3): condition values, keys, options -/

mutual
/-- A condition value: a scalar or a plain associative structure (the
shapes the JSON branch of `whereItemQuery` dispatches on). -/
inductive WVal where
  | int : Int → WVal
  | str : String → WVal
  | obj : WEntries → WVal
/-- The ordered key/value entries of a plain object (JavaScript objects
preserve insertion order for the non-numeric keys used here). -/
inductive WEntries where
  | nil : WEntries
  | cons : String → WVal → WEntries → WEntries
end

/-- A predicate key: a plain column-name string or a `Utils.Literal`
raw-SQL marker (used to inject JSON-path expressions as pseudo-keys). -/
inductive WKey where
  | col : String → WKey
  | lit : String → WKey

/-- The `options.prefix` value: a raw-SQL literal marker or a table name. -/
inductive PrefixVal where
  | lit : String → PrefixVal
  | table : TableName → PrefixVal

/-- A model attribute as `whereItemQuery` interrogates it: whether its type
is `instanceof DataTypes.JSON`, and its `field` override. -/
structure RawAttr where
  typeIsJSON : Bool
  field : Option String := none

/-- The model/metadata accessor (spec §6): the two attribute maps consulted
during field resolution. -/
structure Model where
  rawAttributes : List (String × RawAttr) := []
  fieldRawAttributesMap : List (String × RawAttr) := []

/-- The options bag consumed by `whereItemQuery`. `typeIsJSON` models
`options.type` (whether the supplied type is `instanceof DataTypes.JSON`),
`prefixv` models `options.prefix`. -/
structure WOptions where
  field : Option RawAttr := none
  model : Option Model := none
  typeIsJSON : Option Bool := none
  json : Option Bool := none
  prefixv : Option PrefixVal := none

/-- Property lookup `o[k]` on ordered entries. -/
def alookupW : WEntries → String → Option WVal
  | .nil, _ => none
  | .cons k v rest, key => if k = key then some v else alookupW rest key

/-- JavaScript property assignment `o[k] = v` (overwrites in place,
otherwise appends). -/
def WEntries.set : WEntries → String → WVal → WEntries
  | .nil, p, v => .cons p v .nil
  | .cons q w rest, p, v => if q = p then .cons q v rest else .cons q w (rest.set p v)

/-- JavaScript truthiness of a condition value. -/
def truthyW : WVal → Bool
  | .int n => n ≠ 0
  | .str s => s ≠ ""
  | .obj _ => true

/-- Modelled from the spec: `Dottie.set({}, path, v)` builds the nested
single-key object chain (§4.3: path `a.b.c` with scalar `v` becomes
`(b: (c: v))` under the base column). -/
def dottieSet : List String → WVal → WVal
  | [], v => v
  | k :: ks, v => .obj (.cons k (dottieSet ks v) .nil)

/-- A lookup in an attribute map. -/
def attrsGet : List (String × RawAttr) → String → Option RawAttr
  | [], _ => none
  | (k, a) :: rest, key => if k = key then some a else attrsGet rest key

/-- One character of `JSON.stringify` string escaping. -/
def jsonEscapeChar (c : Char) : List Char :=
  if c = '"' || c = '\\' then ['\\', c] else [c]

/-- String-body escaping of `JSON.stringify`. -/
def jsonEscape (s : String) : String :=
  String.mk (s.data.foldr (fun c acc => jsonEscapeChar c ++ acc) [])

mutual
/-- JavaScript `JSON.stringify` of a condition value. -/
def jsonStringifyV : WVal → String
  | .int n => toString n
  | .str s => "\"" ++ jsonEscape s ++ "\""
  | .obj es => "\x7b" ++ joinSep "," (jsonStringifyE es) ++ "\x7d"
/-- JavaScript `JSON.stringify` of an object's entries, one `"k":v` piece each. -/
def jsonStringifyE : WEntries → List String
  | .nil => []
  | .cons k v rest => ("\"" ++ jsonEscape k ++ "\":" ++ jsonStringifyV v) :: jsonStringifyE rest
end

/-! ## The abstract predicate compiler (external collaborator) -/

/-- Modelled from the spec: the comparator text the abstract (base-dialect)
predicate compiler renders for a `$`-operator (generic comparison
semantics, §4.3/§6; `$eq` is the implicit-equality leaf of §8). -/
def abstractOpSQL (op : String) : String :=
  if op = "$eq" then " = "
  else if op = "$ne" then " != "
  else if op = "$gt" then " > "
  else if op = "$gte" then " >= "
  else if op = "$lt" then " < "
  else if op = "$lte" then " <= "
  else " " ++ op ++ " "

/-- Modelled from the spec: the abstract compiler renders a literal pseudo-key
as its raw SQL and quotes a plain column key (§4.1, §6). -/
def abstractKeySQL : WKey → String
  | .lit s => s
  | .col s => quoteIdentifier s

/-- Modelled from the spec: the escaped rendering of a comparison operand
(§8 example: `` `data`->>'$.a.b' = '5' `` — the operand appears quoted). -/
def quoteScalarSQL : WVal → String
  | .int n => "'" ++ toString n ++ "'"
  | .str s => "'" ++ s ++ "'"
  | .obj es => "'" ++ jsonStringifyV (.obj es) ++ "'"

/-- The comparison fragments of an operator map, in entry order. -/
def abstractOpFrags (key : WKey) : WEntries → List String
  | .nil => []
  | .cons op v rest =>
    (abstractKeySQL key ++ abstractOpSQL op ++ quoteScalarSQL v) :: abstractOpFrags key rest

/-- Modelled from the spec: `AbstractQueryGenerator.whereItemQuery`, the
base-dialect fallback with generic comparison/logical-combinator semantics
(§4.3 "Non-JSON branch", §6): an operator map compiles each operator against
the key and conjoins, a bare scalar is an implicit equality. -/
def abstractWhereItemQuery (key : WKey) (value : WVal) (_options : WOptions) : String :=
  match value with
  | .obj es => joinSep " AND " (abstractOpFrags key es)
  | v => abstractKeySQL key ++ " = " ++ quoteScalarSQL v

/-! ## whereItemQuery itself -/

/-- The table-prefix text for the column reference: a `Utils.Literal` prefix
passes through `handleSequelizeMethod` (which returns the literal's raw SQL —
modelled from the spec §6), a table-name prefix through `quoteTable`. -/
def prefixSQL (options : WOptions) : String :=
  match options.prefixv with
  | none => ""
  | some (.lit s) => s ++ "."
  | some (.table t) => quoteTable t ++ "."

/-- The call `this.quoteIdentifier(key)` applied to the (possibly rewritten) key. -/
def quoteKeySQL : WKey → String
  | .col s => quoteIdentifier s
  | .lit s => quoteIdentifier s

/-- The result of field resolution and dotted-key rewriting (source lines
216–228): the possibly rewritten key and value, and whether the resolved
field type is `instanceof DataTypes.JSON` (`none` when no type was found). -/
structure Resolved where
  key : WKey
  value : WVal
  fieldType : Option Bool

/-- Field resolution (`options.field || model.rawAttributes[key] ||
model.fieldRawAttributesMap[key]`, then `options.type || field.type`) and
the dotted-path rewrite into a synthetic nested object for JSON columns. -/
def resolveKV (key : WKey) (value : WVal) (options : WOptions) : Resolved :=
  let field0 : Option RawAttr :=
    match options.field with
    | some f => some f
    | none =>
      match key with
      | .col s =>
        (match options.model with
         | some m =>
           match attrsGet m.rawAttributes s with
           | some f => some f
           | none => attrsGet m.fieldRawAttributesMap s
         | none => none)
      | .lit _ => none
  let fieldType0 : Option Bool :=
    match options.typeIsJSON with
    | some t => some t
    | none => field0.map fun f => f.typeIsJSON
  match key, options.model with
  | .col s, some m =>
    if sContains s "." then
      match attrsGet m.rawAttributes ((sSegments s).headD "") with
      | some attr =>
        if attr.typeIsJSON then
          ⟨.col (attr.field.getD ((sSegments s).headD "")),
           dottieSet (sSegments s).tail value, some attr.typeIsJSON⟩
        else ⟨.col s, value, fieldType0⟩
      | none => ⟨.col s, value, fieldType0⟩
    else ⟨.col s, value, fieldType0⟩
  | k, _ => ⟨k, value, fieldType0⟩

/-- Function `whereItemQuery` specialised to `options.json = false`. The recursive
self-call made for a top-level `$`-operator key always passes
`json: false`, so it lands here; the body is the source's resolution step
followed by the `options.json === false` arm (`$contains` handling) and the
fall-through to the abstract compiler. -/
def whereItemQueryJF (key : WKey) (value : WVal) (options : WOptions) : String :=
  let r := resolveKV key value options
  match r.value with
  | .obj es =>
    if r.fieldType = some true then
      let prefixedKey := prefixSQL options ++ quoteKeySQL r.key
      match alookupW es "$contains" with
      | some cv =>
        if truthyW cv then
          "JSON_CONTAINS(" ++ prefixedKey ++ ", '" ++ jsonStringifyV cv ++ "')"
        else abstractWhereItemQuery r.key (.obj es) options
      | none => abstractWhereItemQuery r.key (.obj es) options
    else abstractWhereItemQuery r.key (.obj es) options
  | v => abstractWhereItemQuery r.key v options

/-- The `::cast` split applied to the final path segment on entry to
`traverse`: the segment is truncated at the first `::` (the cast text is
parsed and discarded by the source). -/
def splitCastLast : List String → List String
  | [] => []
  | [last] => if sContains last "::" then [String.mk (takeUntilSub "::".data last.data)]
              else [last]
  | x :: y :: t => x :: splitCastLast (y :: t)

/-- The JSON-path expression `prefixedKey->>'$.<path joined by dots>'`. -/
def basePathKey (prefixedKey : String) (path : List String) : String :=
  prefixedKey ++ "->>'$." ++ joinSep "." path ++ "'"

mutual
/-- One step of the source's `traverse(prop, item, path)` closure: computes
the cast-stripped path and base key, then either recurses through a nested
plain object or emits the implicit `$eq` leaf. The source's self-call
`this.whereItemQuery(new Utils.Literal(baseKey), where)` forwards no
options, so its resolution finds no JSON field type and it reduces to the
abstract fallback, inlined here as `abstractWhereItemQuery`. -/
def traverseItem (prefixedKey : String) (path : List String) (prop : String)
    (item : WVal) : List String :=
  let path2 := splitCastLast (path ++ [prop])
  let baseKey := basePathKey prefixedKey path2
  match item with
  | .obj es => traverseEntries prefixedKey path2 baseKey WEntries.nil es
  | .int n => [abstractWhereItemQuery (.lit baseKey) (.obj (.cons "$eq" (.int n) .nil)) {}]
  | .str s => [abstractWhereItemQuery (.lit baseKey) (.obj (.cons "$eq" (.str s) .nil)) {}]
/-- The `_.forOwn` over a nested object inside `traverse`: `$`-prefixed keys
accumulate into the (shared, per-`traverse`-frame) `where` object and emit
an operator leaf against the base key; other keys descend one path segment
deeper. -/
def traverseEntries (prefixedKey : String) (path : List String) (baseKey : String)
    (whereAcc : WEntries) : WEntries → List String
  | .nil => []
  | .cons prop item rest =>
    if sStarts prop "$" then
      let w := whereAcc.set prop item
      abstractWhereItemQuery (.lit baseKey) (.obj w) {} ::
        traverseEntries prefixedKey path baseKey w rest
    else
      traverseItem prefixedKey path prop item ++
        traverseEntries prefixedKey path baseKey whereAcc rest
end

/-- The top-level `_.forOwn(value, ...)` of the JSON branch: a `$`-prefixed
key becomes a fresh one-entry operator object compiled by the recursive call
with `json: false` (which is `whereItemQueryJF`); any other key starts a
`traverse` with path `[prop]`. -/
def topLevelItems (key : WKey) (options : WOptions) (prefixedKey : String) :
    WEntries → List String
  | .nil => []
  | .cons prop item rest =>
    (if sStarts prop "$" then
       [whereItemQueryJF key (.obj (.cons prop item .nil)) { options with json := some false }]
     else traverseItem prefixedKey [] prop item)
      ++ topLevelItems key options prefixedKey rest

/-- Source `whereItemQuery(key, value, options)`: field resolution
and dotted-key rewriting, then the JSON branch (when the resolved field type
is JSON and the value is a plain object) with its `json !== false` traversal
or `json === false` containment arm, else the abstract fallback. The
traversal's fragments are ` AND `-joined and parenthesised exactly when
there is more than one. -/
def whereItemQuery (key : WKey) (value : WVal) (options : WOptions) : String :=
  if options.json = some false then whereItemQueryJF key value options
  else
    let r := resolveKV key value options
    match r.value with
    | .obj es =>
      if r.fieldType = some true then
        let prefixedKey := prefixSQL options ++ quoteKeySQL r.key
        let items := topLevelItems r.key options prefixedKey es
        let result := joinSep " AND " items
        if 1 < items.length then "(" ++ result ++ ")" else result
      else abstractWhereItemQuery r.key (.obj es) options
    | v => abstractWhereItemQuery r.key v options

/-! ## Claims C2/C3/C6: the JSON predicate compiler -/

/-- A "plain" path key, per the claim's nested-path reading: not a
`$`-operator key and carrying no `::cast` suffix. -/
def plainKeyStr (k : String) : Bool := !sStarts k "$" && !sContains k "::"

mutual
/-- All keys at all levels of a condition value are plain path keys. -/
def plainV : WVal → Bool
  | .obj es => plainE es
  | _ => true
/-- All keys at all levels of an entry list are plain path keys. -/
def plainE : WEntries → Bool
  | .nil => true
  | .cons k v rest => plainKeyStr k && plainV v && plainE rest
end

mutual
/-- The claim's reading of the nested object: the dotted paths to each
non-object scalar leaf, in traversal order. -/
def leafPathsV (path : List String) : WVal → List (List String × WVal)
  | .obj es => leafPathsE path es
  | v => [(path, v)]
/-- Leaf paths of an entry list. -/
def leafPathsE (path : List String) : WEntries → List (List String × WVal)
  | .nil => []
  | .cons k v rest => leafPathsV (path ++ [k]) v ++ leafPathsE path rest
end

theorem splitCastLast_plain (p : List String) (k : String) (h : sContains k "::" = false) :
    splitCastLast (p ++ [k]) = p ++ [k] := by
  induction p with
  | nil => simp [splitCastLast, h]
  | cons x t ih =>
    cases ht : t ++ [k] with
    | nil => simp at ht
    | cons y u =>
      show splitCastLast (x :: (t ++ [k])) = x :: (t ++ [k])
      rw [ht]
      show x :: splitCastLast (y :: u) = x :: (y :: u)
      rw [← ht, ih]

mutual
theorem traverseItem_plain (pk : String) (path : List String) (prop : String) (item : WVal)
    (hk : plainKeyStr prop = true) (hv : plainV item = true) :
    traverseItem pk path prop item =
      (leafPathsV (path ++ [prop]) item).map
        (fun pv => basePathKey pk pv.1 ++ " = " ++ quoteScalarSQL pv.2) := by
  have hc : sContains prop "::" = false := by
    rw [plainKeyStr, Bool.and_eq_true] at hk
    simpa using hk.2
  have hsplit := splitCastLast_plain path prop hc
  cases item with
  | obj es =>
    rw [traverseItem]
    simp only [hsplit]
    rw [leafPathsV]
    exact traverseEntries_plain pk (path ++ [prop])
      (basePathKey pk (path ++ [prop])) WEntries.nil es (by simpa [plainV] using hv)
  | int n =>
    rw [traverseItem]
    simp only [hsplit]
    simp [leafPathsV, abstractWhereItemQuery, abstractOpFrags, abstractOpSQL,
      abstractKeySQL, joinSep]
  | str s =>
    rw [traverseItem]
    simp only [hsplit]
    simp [leafPathsV, abstractWhereItemQuery, abstractOpFrags, abstractOpSQL,
      abstractKeySQL, joinSep]
theorem traverseEntries_plain (pk : String) (path : List String) (bk : String)
    (w : WEntries) (es : WEntries) (he : plainE es = true) :
    traverseEntries pk path bk w es =
      (leafPathsE path es).map
        (fun pv => basePathKey pk pv.1 ++ " = " ++ quoteScalarSQL pv.2) := by
  cases es with
  | nil => simp [traverseEntries, leafPathsE]
  | cons prop item rest =>
    rw [plainE, Bool.and_eq_true, Bool.and_eq_true] at he
    obtain ⟨⟨hk, hv⟩, hrest⟩ := he
    have hns : sStarts prop "$" = false := by
      rw [plainKeyStr, Bool.and_eq_true] at hk
      simpa using hk.1
    rw [traverseEntries]
    simp only [hns, Bool.false_eq_true, if_false]
    rw [traverseItem_plain pk path prop item hk hv,
      traverseEntries_plain pk path bk w rest hrest, leafPathsE, List.map_append]
end

theorem topLevelItems_plain (key : WKey) (o : WOptions) (pk : String) (es : WEntries)
    (he : plainE es = true) :
    topLevelItems key o pk es =
      (leafPathsE [] es).map
        (fun pv => basePathKey pk pv.1 ++ " = " ++ quoteScalarSQL pv.2) := by
  cases es with
  | nil => simp [topLevelItems, leafPathsE]
  | cons prop item rest =>
    rw [plainE, Bool.and_eq_true, Bool.and_eq_true] at he
    obtain ⟨⟨hk, hv⟩, hrest⟩ := he
    have hns : sStarts prop "$" = false := by
      rw [plainKeyStr, Bool.and_eq_true] at hk
      simpa using hk.1
    rw [topLevelItems]
    simp only [hns, Bool.false_eq_true, if_false]
    rw [traverseItem_plain pk [] prop item hk hv,
      topLevelItems_plain key o pk rest hrest, leafPathsE, List.map_append]

/-- C2: for a JSON-typed column and a nested plain object, each leaf reached
by path `p1...pn` compiles to an equality of the JSON-path extraction
``col->>'$.p1...pn'`` of the quoted column against the escaped leaf; the
top-level fragments are ` AND `-joined and parenthesised exactly when there
is more than one. -/
theorem whereItemQuery_json_leaf_paths (c : String) (es : WEntries) (o : WOptions)
    (hm : o.model = none) (hp : o.prefixv = none) (hj : o.json ≠ some false)
    (ht : o.typeIsJSON = some true) (hplain : plainE es = true) :
    whereItemQuery (.col c) (.obj es) o =
      (if 1 < ((leafPathsE [] es).map
          (fun pv => basePathKey (quoteIdentifier c) pv.1 ++ " = " ++ quoteScalarSQL pv.2)).length
       then "(" ++ joinSep " AND " ((leafPathsE [] es).map
          (fun pv => basePathKey (quoteIdentifier c) pv.1 ++ " = " ++ quoteScalarSQL pv.2)) ++ ")"
       else joinSep " AND " ((leafPathsE [] es).map
          (fun pv => basePathKey (quoteIdentifier c) pv.1 ++ " = " ++ quoteScalarSQL pv.2))) := by
  rw [whereItemQuery]
  simp only [hj, if_neg, resolveKV, hm, ht]
  rw [topLevelItems_plain (.col c) o (prefixSQL o ++ quoteKeySQL (.col c)) es hplain]
  simp [prefixSQL, hp, quoteKeySQL]

theorem whereItemQuery_json_leaf_paths_witness :
    (({ typeIsJSON := some true } : WOptions).model = none ∧
      ({ typeIsJSON := some true } : WOptions).json ≠ some false ∧
      plainE (.cons "a" (.obj (.cons "b" (.int 5) .nil)) .nil) = true) ∧
    whereItemQuery (.col "data") (.obj (.cons "a" (.obj (.cons "b" (.int 5) .nil)) .nil))
      { typeIsJSON := some true } = "`data`->>'$.a.b' = '5'" := by
  refine ⟨⟨rfl, by simp, by decide⟩, ?_⟩
  have h := whereItemQuery_json_leaf_paths "data" (.cons "a" (.obj (.cons "b" (.int 5) .nil)) .nil)
    { typeIsJSON := some true } rfl rfl (by simp) rfl (by decide)
  rw [h]
  rfl

/-- A nested single-key chain `(k1: (k2: ... (kn: v)))`. -/
def nestChain : List String → WVal → WVal
  | [], v => v
  | k :: ks, v => .obj (.cons k (nestChain ks v) .nil)

theorem traverseItem_nestChain (pk : String) (path : List String) (k : String)
    (ks : List String) (op : String) (v : WVal)
    (hk : plainKeyStr k = true) (hks : ∀ x ∈ ks, plainKeyStr x = true)
    (hop : sStarts op "$" = true) :
    traverseItem pk path k (nestChain ks (.obj (.cons op v .nil))) =
      [abstractWhereItemQuery (.lit (basePathKey pk (path ++ k :: ks)))
        (.obj (.cons op v .nil)) {}] := by
  induction ks generalizing path k with
  | nil =>
    have hc : sContains k "::" = false := by
      rw [plainKeyStr, Bool.and_eq_true] at hk
      simpa using hk.2
    rw [nestChain, traverseItem]
    simp only [splitCastLast_plain path k hc]
    rw [traverseEntries]
    simp [hop, traverseEntries, WEntries.set]
  | cons k2 ks2 ih =>
    have hc : sContains k "::" = false := by
      rw [plainKeyStr, Bool.and_eq_true] at hk
      simpa using hk.2
    have hns : sStarts k2 "$" = false := by
      have := hks k2 (by simp)
      rw [plainKeyStr, Bool.and_eq_true] at this
      simpa using this.1
    rw [nestChain, traverseItem]
    simp only [splitCastLast_plain path k hc]
    rw [traverseEntries]
    simp only [hns, Bool.false_eq_true, if_false]
    rw [traverseEntries, List.append_nil,
      ih (path ++ [k]) k2 (hks k2 (by simp)) (fun x hx => hks x (by simp [hx]))]
    simp

/-- C3: inside the JSON traversal, a `$`-prefixed key terminates the path
recursion at its branch: the whole branch compiles to one operator leaf — a
recursive predicate call on the JSON-path expression accumulated so far as a
literal pseudo-key (which resolves to the abstract compiler's rendering of
the operator map) — and the `$`-key is never treated as a path segment. -/
theorem whereItemQuery_dollar_terminates (c : String) (ks : List String) (op : String)
    (v : WVal) (o : WOptions)
    (hm : o.model = none) (hp : o.prefixv = none) (hj : o.json ≠ some false)
    (ht : o.typeIsJSON = some true) (hne : ks ≠ [])
    (hks : ∀ x ∈ ks, plainKeyStr x = true) (hop : sStarts op "$" = true) :
    whereItemQuery (.col c) (nestChain ks (.obj (.cons op v .nil))) o =
      abstractWhereItemQuery (.lit (basePathKey (quoteIdentifier c) ks))
        (.obj (.cons op v .nil)) {} := by
  cases ks with
  | nil => exact absurd rfl hne
  | cons k ks2 =>
    rw [nestChain, whereItemQuery]
    simp only [hj, if_neg, resolveKV, hm, ht]
    rw [topLevelItems]
    have hns : sStarts k "$" = false := by
      have := hks k (by simp)
      rw [plainKeyStr, Bool.and_eq_true] at this
      simpa using this.1
    simp only [hns, Bool.false_eq_true, if_false]
    rw [topLevelItems, List.append_nil,
      traverseItem_nestChain (prefixSQL o ++ quoteKeySQL (.col c)) [] k ks2 op v
        (hks k (by simp)) (fun x hx => hks x (by simp [hx])) hop]
    simp [joinSep, prefixSQL, hp, quoteKeySQL]

theorem whereItemQuery_dollar_terminates_witness :
    (({ typeIsJSON := some true } : WOptions).model = none ∧
      sStarts "$gt" "$" = true ∧ plainKeyStr "a" = true) ∧
    whereItemQuery (.col "data") (.obj (.cons "a" (.obj (.cons "$gt" (.int 5) .nil)) .nil))
      { typeIsJSON := some true } = "`data`->>'$.a' > '5'" := by
  refine ⟨⟨rfl, by decide, by decide⟩, ?_⟩
  have h := whereItemQuery_dollar_terminates "data" ["a"] "$gt" (.int 5)
    { typeIsJSON := some true } rfl rfl (by simp) rfl (by simp)
    (by intro x hx; simp at hx; rw [hx]; decide) (by decide)
  rw [show nestChain ["a"] (.obj (.cons "$gt" (.int 5) .nil)) =
    WVal.obj (.cons "a" (.obj (.cons "$gt" (.int 5) .nil)) .nil) from rfl] at h
  rw [h]
  rfl

/-- C6 counterexample: with `options.json === false` and a non-`$contains`
operator, the claim says the call silently yields nothing; in fact the
source falls through to `AbstractQueryGenerator.whereItemQuery`, whose
generic compilation yields a non-empty fragment against the bare column. -/
theorem whereItemQuery_jsonFalse_counterexample :
    whereItemQuery (.col "data") (.obj (.cons "$gt" (.int 5) .nil))
        { typeIsJSON := some true, json := some false } =
      abstractWhereItemQuery (.col "data") (.obj (.cons "$gt" (.int 5) .nil))
        { typeIsJSON := some true, json := some false } ∧
    whereItemQuery (.col "data") (.obj (.cons "$gt" (.int 5) .nil))
        { typeIsJSON := some true, json := some false } = "`data` > '5'" ∧
    ("`data` > '5'" : String) ≠ "" := by
  exact ⟨rfl, rfl, by decide⟩

/-- C6 amended: under `json: false` on a JSON-typed field with a plain-object
value, a truthy `$contains` operand yields
`JSON_CONTAINS(<prefixed quoted column>, '<JSON-serialized operand>')`; any
other shape (no `$contains`, or a falsy operand) falls through to the
abstract predicate compiler's generic rendering of the whole value against
the column — it is not dialect-handled, but the call does return that
delegated fragment rather than nothing. -/
theorem whereItemQuery_jsonFalse (c : String) (es : WEntries) (o : WOptions)
    (hm : o.model = none) (hj : o.json = some false) (ht : o.typeIsJSON = some true) :
    whereItemQuery (.col c) (.obj es) o =
      match alookupW es "$contains" with
      | some cv =>
        if truthyW cv then
          "JSON_CONTAINS(" ++ (prefixSQL o ++ quoteIdentifier c) ++ ", '"
            ++ jsonStringifyV cv ++ "')"
        else abstractWhereItemQuery (.col c) (.obj es) o
      | none => abstractWhereItemQuery (.col c) (.obj es) o := by
  rw [whereItemQuery]
  simp only [hj, if_pos]
  rw [whereItemQueryJF]
  simp only [resolveKV, hm, ht]
  cases alookupW es "$contains" with
  | none => simp [quoteKeySQL]
  | some cv => by_cases hcv : truthyW cv = true <;> simp [hcv, quoteKeySQL]

theorem whereItemQuery_jsonFalse_witness :
    (({ typeIsJSON := some true, json := some false } : WOptions).model = none ∧
      ({ typeIsJSON := some true, json := some false } : WOptions).json = some false) ∧
    whereItemQuery (.col "data") (.obj (.cons "$contains" (.int 7) .nil))
      { typeIsJSON := some true, json := some false } = "JSON_CONTAINS(`data`, '7')" := by
  refine ⟨⟨rfl, rfl⟩, ?_⟩
  have h := whereItemQuery_jsonFalse "data" (.cons "$contains" (.int 7) .nil)
    { typeIsJSON := some true, json := some false } rfl rfl rfl
  rw [h]
  rfl

/-! ## changeColumnQuery / renameColumnQuery / removeIndexQuery /
showIndexesQuery (§4.4) and claim C9 -/

/-- A JavaScript line terminator (never matched by `.` in a regex). -/
def isLineTerm (c : Char) : Bool :=
  c = '\n' || c = '\r' || c = '\u2028' || c = '\u2029'

/-- The lazy `/.+?(?=REFERENCES)/` match attempt starting at the head of
`l`: the smallest `m ≥ 1` such that `REFERENCES` begins at offset `m` and no
line terminator occurs in the first `m` characters. -/
def lazyFindFrom : List Char → Option Nat
  | [] => none
  | c :: rest =>
    if isLineTerm c then none
    else if isPrefixOfL refsChars rest then some 1
    else (lazyFindFrom rest).map (· + 1)

/-- JavaScript `s.replace(/.+?(?=REFERENCES)/, '')`: delete the leftmost
shortest nonempty run of `.`-matchable characters that ends where a
`REFERENCES` begins. -/
def replaceLazyRefs : List Char → List Char
  | [] => []
  | c :: rest =>
    match lazyFindFrom (c :: rest) with
    | some m => (c :: rest).drop m
    | none => c :: replaceLazyRefs rest

/-- The two clause lists built by `changeColumnQuery`: plain `CHANGE`
entries (note the raw backtick template `` `<attr>` `<attr>` <def> ``, not
`quoteIdentifier`) and `ADD CONSTRAINT` entries for definitions containing
`REFERENCES`. -/
def changeColumnParts : List (String × String) → List String × List String
  | [] => ([], [])
  | (attributeName, definition) :: rest =>
    let (attrs, constraints) := changeColumnParts rest
    if sContains definition "REFERENCES" then
      (attrs,
       (quoteIdentifier (attributeName ++ "_foreign_idx") ++ " FOREIGN KEY ("
          ++ quoteIdentifier attributeName ++ ") "
          ++ String.mk (replaceLazyRefs definition.data)) :: constraints)
    else
      (("`" ++ attributeName ++ "` `" ++ attributeName ++ "` " ++ definition) :: attrs,
       constraints)

/-- Source `changeColumnQuery(tableName, attributes)`. -/
def changeColumnQuery (tableName : TableName) (attributes : List (String × String)) : String :=
  let parts := changeColumnParts attributes
  let finalQuery :=
    (if parts.1.length ≠ 0 then
       "CHANGE " ++ joinSep ", " parts.1 ++ (if parts.2.length ≠ 0 then " " else "")
     else "")
      ++ (if parts.2.length ≠ 0 then "ADD CONSTRAINT " ++ joinSep ", " parts.2 else "")
  "ALTER TABLE " ++ quoteTable tableName ++ " " ++ finalQuery ++ ";"

/-- Source `renameColumnQuery(tableName, attrBefore, attributes)`
(again the raw backtick template, not `quoteIdentifier`). -/
def renameColumnQuery (tableName : TableName) (attrBefore : String)
    (attributes : List (String × String)) : String :=
  "ALTER TABLE " ++ quoteTable tableName ++ " CHANGE "
    ++ joinSep ", " (attributes.map fun kv =>
         "`" ++ attrBefore ++ "` `" ++ kv.1 ++ "` " ++ kv.2)
    ++ ";"

/-- Modelled from the spec: `Utils.inflection.underscore` — lower-cases and
inserts `_` at lower-to-upper camel boundaries (§4.4 "underscored"). -/
def underscoreAux (prev : Option Char) : List Char → List Char
  | [] => []
  | c :: rest =>
    (if c.isUpper && (match prev with | some p => p.isLower | none => false)
     then ['_', c.toLower] else [c.toLower]) ++ underscoreAux (some c) rest

/-- Modelled from the spec: the underscored form of a name. -/
def underscored (s : String) : String := String.mk (underscoreAux none s.data)

/-- Source `removeIndexQuery(tableName, indexNameOrAttributes)`:
a string index name is interpolated as-is; a column list is synthesised into
`underscored(<table>_<cols-joined>)`. -/
def removeIndexQuery (tableName : String)
    (indexNameOrAttributes : Sum String (List String)) : String :=
  let indexName :=
    match indexNameOrAttributes with
    | .inl s => s
    | .inr attrs => underscored (tableName ++ "_" ++ joinSep "_" attrs)
  "DROP INDEX " ++ indexName ++ " ON " ++ quoteIdentifiers tableName

/-- The options bag of `showIndexesQuery`. -/
structure ShowIndexesOptions where
  database : Option String := none
deriving DecidableEq

/-- Source `showIndexesQuery(tableName, options)`: the optional
database is wrapped raw in backticks. -/
def showIndexesQuery (tableName : TableName) (options : Option ShowIndexesOptions) : String :=
  "SHOW INDEX FROM " ++ quoteTable tableName ++
    (match options with
     | some o =>
       (match o.database with
        | some db => if db ≠ "" then " FROM `" ++ db ++ "`" else ""
        | none => "")
     | none => "")

/-- What claim C9 asserts of `removeIndexQuery` (this definition follows the
spec's words, for comparison with the source-derived `removeIndexQuery`):
every interpolated identifier passes through `quoteIdentifier`. -/
def removeIndexQuerySpeced (tableName : String)
    (indexNameOrAttributes : Sum String (List String)) : String :=
  let indexName :=
    match indexNameOrAttributes with
    | .inl s => s
    | .inr attrs => underscored (tableName ++ "_" ++ joinSep "_" attrs)
  "DROP INDEX " ++ quoteIdentifier indexName ++ " ON " ++ quoteIdentifiers tableName

/-- C9 counterexample: `removeIndexQuery` interpolates a string index name
with no quoting at all, so its output differs from the spec-asserted
quoted form already on an ordinary identifier. -/
theorem removeIndexQuery_unquoted_counterexample :
    removeIndexQuery "t" (Sum.inl "idx") = "DROP INDEX idx ON `t`" ∧
    removeIndexQuerySpeced "t" (Sum.inl "idx") = "DROP INDEX `idx` ON `t`" ∧
    removeIndexQuery "t" (Sum.inl "idx") ≠ removeIndexQuerySpeced "t" (Sum.inl "idx") := by
  exact ⟨rfl, rfl, by decide⟩

/-- C9 amended: table names do pass through `quoteTable`/`quoteIdentifiers`,
but not every identifier passes through an escaper: `removeIndexQuery`
interpolates a string index name unquoted, `showIndexesQuery` wraps
`options.database` raw in backticks, and `changeColumnQuery` (like
`renameColumnQuery`) wraps column names with a raw backtick template rather
than `quoteIdentifier`. -/
theorem quoting_discipline_amended :
    (∀ (t name : String),
        removeIndexQuery t (Sum.inl name) =
          "DROP INDEX " ++ name ++ " ON " ++ quoteIdentifiers t) ∧
    (∀ (t : TableName) (db : String), db ≠ "" →
        showIndexesQuery t (some { database := some db }) =
          "SHOW INDEX FROM " ++ quoteTable t ++ " FROM `" ++ db ++ "`") ∧
    (∀ (t : TableName) (attrName definition : String),
        sContains definition "REFERENCES" = false →
        changeColumnQuery t [(attrName, definition)] =
          "ALTER TABLE " ++ quoteTable t ++ " "
            ++ ("CHANGE " ++ ("`" ++ attrName ++ "` `" ++ attrName ++ "` " ++ definition))
            ++ ";") := by
  refine ⟨fun t name => rfl, fun t db hdb => ?_, fun t attrName definition hdef => ?_⟩
  · simp [showIndexesQuery, hdb, strAppend_assoc]
  · simp [changeColumnQuery, changeColumnParts, hdef, joinSep, strAppend_empty]

theorem quoting_discipline_amended_witness :
    (("d" : String) ≠ "" ∧ sContains "INTEGER" "REFERENCES" = false) ∧
    showIndexesQuery (.str "t") (some { database := some "d" }) =
      "SHOW INDEX FROM `t` FROM `d`" ∧
    changeColumnQuery (.str "t") [("c", "INTEGER")] = "ALTER TABLE `t` CHANGE `c` `c` INTEGER;" := by
  refine ⟨⟨by decide, by decide⟩, ?_, ?_⟩
  · exact (quoting_discipline_amended.2.1 (.str "t") "d" (by decide)).trans rfl
  · exact (quoting_discipline_amended.2.2 (.str "t") "c" "INTEGER" (by decide)).trans rfl
